import Mathlib

/-!
Verification of the runtime core of the GameEngineProject repository
(entity/component game engine: frame loop, fixed-timestep scheduler,
object pools, scene indices, component lifecycle, transform hierarchy).

Numeric quantities that the C++ code stores in `float` are modelled by
exact rationals (`ℚ`); machine counters (`size_t`) are modelled by `ℕ`
with the side conditions under which the code keeps them in range.
Pointers are modelled by stable numeric identities.
-/

set_option maxHeartbeats 1600000

/- ================================================================
   Engine host main loop (src/Engine/src/core/Engine.cpp)
   ================================================================ -/

/-- The `dt` arguments handed to the three per-frame phase calls by
`Engine::UpdateFrame`. -/
structure PhaseArgs where
  updateArg : ℚ
  lateUpdateArg : ℚ
  fixedUpdateArg : ℚ
  deriving Repr, DecidableEq

namespace Engine

/-- `Engine::CalculateTiming`: `deltaTime = currentTime - lastFrameTime`. -/
def CalculateTiming (currentTime lastFrameTime : ℚ) : ℚ :=
  currentTime - lastFrameTime

/-- `Engine::Initialize` / `SetConfig`: `fixedDeltaTime = 1.0f / config.fixedUpdateRate`. -/
def initFixedDeltaTime (fixedUpdateRate : ℚ) : ℚ :=
  1 / fixedUpdateRate

/-- `Engine::UpdateFrame`: when a current scene exists it calls
`UpdateSystems(scene, deltaTime)`, `LateUpdateSystems(scene, deltaTime)`, and
`FixedUpdateSystems(scene, fixedDeltaTime)`; with no scene it returns early. -/
def UpdateFrame (hasCurrentScene : Bool) (deltaTime fixedDeltaTime : ℚ) :
    Option PhaseArgs :=
  if hasCurrentScene then
    some ⟨deltaTime, deltaTime, fixedDeltaTime⟩
  else
    none

end Engine

/- ================================================================
   Frame scheduler fixed-timestep accumulator
   (src/Engine/src/systems/UpdateSystem.cpp, UpdateSystem::FixedUpdate)
   ================================================================ -/

/-- The `while (fixedUpdateAccumulator >= fixedUpdateInterval)` loop of
`UpdateSystem::FixedUpdate`.  Each iteration performs one batched
`OnFixedUpdate` round, passing `fixedUpdateInterval` as the dt argument
(recorded in the returned list), and subtracts `fixedUpdateInterval` from
the accumulator.  The returned rational is the accumulator when the loop
exits.  The C++ loop does not terminate for a non-positive interval, so the
model guards the loop body with `0 < interval`; every claim about it assumes
a positive interval. -/
def fixedLoop (interval : ℚ) (accum : ℚ) : List ℚ × ℚ :=
  if h : 0 < interval ∧ interval ≤ accum then
    let rest := fixedLoop interval (accum - interval)
    (interval :: rest.1, rest.2)
  else
    ([], accum)
termination_by (⌊accum / interval⌋).toNat
decreasing_by
  have hpos := h.1
  have hle := h.2
  have hne : interval ≠ 0 := ne_of_gt hpos
  have hdiv : (accum - interval) / interval = accum / interval - 1 := by
    field_simp
  have hfloor : ⌊(accum - interval) / interval⌋ = ⌊accum / interval⌋ - 1 := by
    rw [hdiv]
    exact_mod_cast Int.floor_sub_int (accum / interval) 1
  have hone : (1 : ℚ) ≤ accum / interval := (one_le_div hpos).mpr hle
  have hfl1 : (1 : ℤ) ≤ ⌊accum / interval⌋ := by
    exact_mod_cast Int.le_floor.mpr (by exact_mod_cast hone)
  omega

/-- State of `UpdateSystem` relevant to `FixedUpdate`. -/
structure UpdateSystemState where
  enabled : Bool
  fixedUpdateInterval : ℚ
  fixedUpdateAccumulator : ℚ
  deriving Repr, DecidableEq

namespace UpdateSystem

/-- `UpdateSystem::FixedUpdate(scene, deltaTime)`: returns early when the
system is disabled or the scene is null; otherwise adds `deltaTime` to the
accumulator and runs the fixed-step loop.  The first component lists the dt
argument passed to the behavior batch in each round performed. -/
def FixedUpdate (s : UpdateSystemState) (sceneNonNull : Bool) (deltaTime : ℚ) :
    List ℚ × UpdateSystemState :=
  if !s.enabled || !sceneNonNull then
    ([], s)
  else
    let r := fixedLoop s.fixedUpdateInterval (s.fixedUpdateAccumulator + deltaTime)
    (r.1, { s with fixedUpdateAccumulator := r.2 })

end UpdateSystem

/- ================================================================
   Scene registry (src/Engine/src/core/SceneManager.cpp)
   ================================================================ -/

/-- State of `SceneManager` relevant to scene transitions.  Scenes are
identified by their registered names. -/
structure SceneManagerState where
  scenes : List String
  currentScene : Option String
  isTransitioning : Bool
  nextSceneName : String
  deriving Repr, DecidableEq

namespace SceneManager

/-- `SceneManager::SwitchToScene`: no effect when the name is absent,
otherwise makes the named scene current. -/
def SwitchToScene (s : SceneManagerState) (name : String) : SceneManagerState :=
  if name ∈ s.scenes then
    { s with currentScene := some name }
  else
    s

/-- `SceneManager::LoadScene`: fails only when the name is absent; otherwise
switches synchronously and reports success.  It does not consult
`isTransitioning`. -/
def LoadScene (s : SceneManagerState) (name : String) : Bool × SceneManagerState :=
  if name ∈ s.scenes then
    (true, SwitchToScene s name)
  else
    (false, s)

/-- `SceneManager::LoadSceneAsync`: rejected when the scene is unknown or a
transition is already pending; otherwise records the pending transition. -/
def LoadSceneAsync (s : SceneManagerState) (name : String) : Bool × SceneManagerState :=
  if ¬ name ∈ s.scenes then
    (false, s)
  else if s.isTransitioning then
    (false, s)
  else
    (true, { s with isTransitioning := true, nextSceneName := name })

end SceneManager

/- ================================================================
   Components and entities
   (src/Engine/include/components/Component.h,
    src/Engine/include/core/GameObject.h,
    src/Engine/src/core/GameObject.cpp)
   ================================================================ -/

/-- The concrete component class hierarchy of the repository: `Transform`
and `Behavior` derive from `Component`; `TestBehavior`, `MovementBehavior`
and `PlayerController` derive from `Behavior` (Behavior.h). -/
inductive CompType
  | transform
  | behavior
  | testBehavior
  | movementBehavior
  | playerController
  deriving Repr, DecidableEq

/-- Success of `dynamic_cast<T*>` / `Component::As<T>` / `Component::IsOfType<T>`:
the dynamic type equals `T` or derives from it. -/
def CompType.isA (t u : CompType) : Bool :=
  t = u ||
    match t, u with
    | .testBehavior, .behavior => true
    | .movementBehavior, .behavior => true
    | .playerController, .behavior => true
    | _, _ => false

/-- A component instance: its dynamic type, its `active` flag, and a stable
identity `uid` standing for the C++ object address. -/
structure Component where
  uid : ℕ
  ty : CompType
  active : Bool
  deriving Repr, DecidableEq

/-- Lifecycle hook invocations observed on components. -/
inductive Hook
  | enable (uid : ℕ)
  | disable (uid : ℕ)
  | destroy (uid : ℕ)
  deriving Repr, DecidableEq

/-- A `GameObject`: id, tag, `active` flag and its owned component list in
insertion order. -/
structure GameObject where
  id : ℕ
  tag : String
  active : Bool
  comps : List Component
  deriving Repr, DecidableEq

/-- `std::find_if` followed by `erase`: the first element satisfying `p`,
together with the list with that element removed. -/
def removeFirst (p : Component → Bool) : List Component → Option (Component × List Component)
  | [] => none
  | c :: cs =>
    if p c then
      some (c, cs)
    else
      (removeFirst p cs).map fun r => (r.1, c :: r.2)

namespace GameObject

/-- `GameObject::GetComponent<T>`: the first owned component for which
`As<T>` (a `dynamic_cast`) succeeds. -/
def GetComponent (T : CompType) (g : GameObject) : Option Component :=
  g.comps.find? fun c => c.ty.isA T

/-- `GameObject::AddComponent<T>`: if `GetComponent<T>()` is non-null the
existing component is returned and nothing is created; otherwise a new
component of exact type `T` (active by default) is appended, and `OnEnable`
fires when the object is active.  Returns the new object state, the
component returned to the caller, and the hooks invoked. -/
def AddComponent (T : CompType) (freshUid : ℕ) (g : GameObject) :
    GameObject × Component × List Hook :=
  match GetComponent T g with
  | some c => (g, c, [])
  | none =>
    let c : Component := ⟨freshUid, T, true⟩
    ({ g with comps := g.comps ++ [c] }, c,
      if g.active then [Hook.enable freshUid] else [])

/-- `GameObject::RemoveComponent<T>()`: finds the first component with
`IsOfType<T>`, invokes `OnDestroy` on it, erases it.  Returns the new state,
whether a component was removed, and the hooks invoked. -/
def RemoveComponentOfType (T : CompType) (g : GameObject) :
    GameObject × Bool × List Hook :=
  match removeFirst (fun c => c.ty.isA T) g.comps with
  | none => (g, false, [])
  | some (c, rest) => ({ g with comps := rest }, true, [Hook.destroy c.uid])

/-- The erase loop of `GameObject::RemoveComponents<T>()`: every component
with `IsOfType<T>` receives `OnDestroy` and is erased, front to back. -/
def removeComponentsLoop (T : CompType) : List Component → List Component × ℕ × List Hook
  | [] => ([], 0, [])
  | c :: cs =>
    let r := removeComponentsLoop T cs
    if c.ty.isA T then
      (r.1, r.2.1 + 1, Hook.destroy c.uid :: r.2.2)
    else
      (c :: r.1, r.2.1, r.2.2)

/-- `GameObject::RemoveComponents<T>()`. -/
def RemoveComponents (T : CompType) (g : GameObject) :
    GameObject × ℕ × List Hook :=
  let r := removeComponentsLoop T g.comps
  ({ g with comps := r.1 }, r.2.1, r.2.2)

/-- `GameObject::RemoveComponent(Component*)`: finds the component by
pointer identity, invokes `OnDisable` then `OnDestroy`, erases it. -/
def RemoveComponentPtr (uid : ℕ) (g : GameObject) :
    GameObject × Bool × List Hook :=
  match removeFirst (fun c => c.uid = uid) g.comps with
  | none => (g, false, [])
  | some (c, rest) =>
    ({ g with comps := rest }, true, [Hook.disable c.uid, Hook.destroy c.uid])

/-- `GameObject::~GameObject() = default`: the owned components are freed by
their (default) destructors; no `OnDisable` or `OnDestroy` hook is invoked
on this path. -/
def destructionHooks (_g : GameObject) : List Hook := []

/-- `GameObject::SetActive`: returns unchanged with no hooks when the flag
already has the requested value; otherwise flips the object flag and fires
`OnEnable` (activation) or `OnDisable` (deactivation) on each component
whose own `active` flag is set, leaving the component flags untouched. -/
def SetActive (g : GameObject) (isActive : Bool) : GameObject × List Hook :=
  if g.active = isActive then
    (g, [])
  else
    let hooks := g.comps.filterMap fun c =>
      if isActive then
        if c.active then some (Hook.enable c.uid) else none
      else
        if c.active then some (Hook.disable c.uid) else none
    ({ g with active := isActive }, hooks)

/-- `GameObject::Update`: nothing when the object is inactive; otherwise
each component with its own `active` flag set is updated in insertion
order.  Returns the uids updated. -/
def UpdateInvoked (g : GameObject) : List ℕ :=
  if !g.active then
    []
  else
    (g.comps.filter fun c => c.active).map Component.uid

end GameObject

/- ================================================================
   Object pool (src/Engine/include/memory/ObjectPool.h)
   ================================================================ -/

/-- Counter state of `ObjectPool<T>`: the free-list length (`available`),
the `inUse` and `totalCreated` counters, and the recorded `capacity`. -/
structure ObjectPool where
  capacity : ℕ
  available : ℕ
  inUse : ℕ
  totalCreated : ℕ
  deriving Repr, DecidableEq

namespace ObjectPool

/-- The `ObjectPool(initialCapacity)` constructor: pre-allocates `capacity`
objects, all on the free list; `totalCreated = capacity`. -/
def init (initialCapacity : ℕ) : ObjectPool :=
  ⟨initialCapacity, initialCapacity, 0, initialCapacity⟩

/-- `ObjectPool::Get`: when the free list is empty a fresh object is created
(`totalCreated++`); either way `inUse++`.  The Boolean records whether the
slow allocating path ran. -/
def Get (p : ObjectPool) : ObjectPool × Bool :=
  if p.available = 0 then
    ({ p with totalCreated := p.totalCreated + 1, inUse := p.inUse + 1 }, true)
  else
    ({ p with available := p.available - 1, inUse := p.inUse + 1 }, false)

/-- `ObjectPool::Return` applied to a non-null, previously acquired pointer:
the object is reset and pushed on the free list, `inUse--`.  (`Return(nullptr)`
is a no-op and is not modelled; the claims only release acquired pointers.) -/
def Return (p : ObjectPool) : ObjectPool :=
  { p with available := p.available + 1, inUse := p.inUse - 1 }

/-- `ObjectPool::Reserve(newCapacity)`: no-op unless the capacity grows, in
which case `newCapacity - capacity` fresh objects are queued. -/
def Reserve (p : ObjectPool) (newCapacity : ℕ) : ObjectPool :=
  if newCapacity ≤ p.capacity then
    p
  else
    { capacity := newCapacity
      available := p.available + (newCapacity - p.capacity)
      inUse := p.inUse
      totalCreated := p.totalCreated + (newCapacity - p.capacity) }

end ObjectPool

/-- One public pool operation of the claims: `Get`, `Return` of a
previously-acquired pointer, or `Reserve`. -/
inductive PoolOp
  | get
  | ret
  | reserve (n : ℕ)
  deriving Repr, DecidableEq

/-- Run a sequence of pool operations. -/
def runPool : List PoolOp → ObjectPool → ObjectPool
  | [], p => p
  | PoolOp.get :: ops, p => runPool ops (p.Get).1
  | PoolOp.ret :: ops, p => runPool ops p.Return
  | PoolOp.reserve n :: ops, p => runPool ops (p.Reserve n)

/-- A sequence is admissible when every `ret` releases a pointer that is
actually outstanding (`inUse > 0` at that point); `size_t` then never
underflows. -/
def okPool : List PoolOp → ObjectPool → Bool
  | [], _ => true
  | PoolOp.get :: ops, p => okPool ops (p.Get).1
  | PoolOp.ret :: ops, p => decide (0 < p.inUse) && okPool ops p.Return
  | PoolOp.reserve n :: ops, p => okPool ops (p.Reserve n)

/- ================================================================
   Scene entity indices (src/Engine/src/core/Scene.cpp)
   ================================================================ -/

/-- First-match bucket lookup in the tag map
(`objectsByTag.find(tag)`; entities are referenced by their ids). -/
def lookupBucket : List (String × List ℕ) → String → List ℕ
  | [], _ => []
  | (u, b) :: rest, t => if u = t then b else lookupBucket rest t

/-- `objectsByTag[tag].push_back(gameObject)`: appends to the existing
bucket, or creates a singleton bucket for a new tag. -/
def bucketPush : List (String × List ℕ) → String → ℕ → List (String × List ℕ)
  | [], t, i => [(t, [i])]
  | (u, b) :: rest, t, i =>
    if u = t then
      (u, b ++ [i]) :: rest
    else
      (u, b) :: bucketPush rest t i

/-- `List.erase` for `ℕ` entries written out (std::find + erase of the first
occurrence). -/
def eraseFirstNat (i : ℕ) : List ℕ → List ℕ
  | [] => []
  | j :: rest => if j = i then rest else j :: eraseFirstNat i rest

/-- `Scene::RemoveFromLookupMaps` on the tag map: looks up the bucket of the
object's current tag, erases the first occurrence of the object, and drops
the bucket when it becomes empty.  A missing tag key is transiently created
empty by `operator[]` and immediately erased again, i.e. a no-op. -/
def bucketErase : List (String × List ℕ) → String → ℕ → List (String × List ℕ)
  | [], _, _ => []
  | (u, b) :: rest, t, i =>
    if u = t then
      let b2 := eraseFirstNat i b
      if b2 = [] then rest else (u, b2) :: rest
    else
      (u, b) :: bucketErase rest t i

/-- The entity bookkeeping of a `Scene`: the owned objects in insertion
order and the two lookup indices (entities are referenced by id, standing
for the C++ pointer). -/
structure Scene where
  objects : List GameObject
  objectsById : List ℕ
  objectsByTag : List (String × List ℕ)
  deriving Repr, DecidableEq

namespace Scene

/-- `Scene::UpdateLookupMaps` followed by the `objects.push_back` of
`Scene::AddGameObject`: registers ownership, maps the id, appends to the
bucket of the object's tag.  (`objectsById[id] = ptr` overwrites an existing
key, which leaves our id list unchanged.) -/
def AddGameObject (s : Scene) (g : GameObject) : Scene :=
  { objects := s.objects ++ [g]
    objectsById := if g.id ∈ s.objectsById then s.objectsById else s.objectsById ++ [g.id]
    objectsByTag := bucketPush s.objectsByTag g.tag g.id }

/-- `GameObject::SetTag` on an owned entity: mutates only the entity's tag
field; the scene's indices are not touched. -/
def SetTagInScene (s : Scene) (id : ℕ) (newTag : String) : Scene :=
  { s with
    objects := s.objects.map fun g => if g.id = id then { g with tag := newTag } else g }

/-- `std::find_if` + `erase` on the owned-object list. -/
def removeFirstObj (id : ℕ) : List GameObject → Option (GameObject × List GameObject)
  | [] => none
  | g :: gs =>
    if g.id = id then
      some (g, gs)
    else
      (removeFirstObj id gs).map fun r => (r.1, g :: r.2)

/-- `Scene::DestroyGameObject`: when the entity is owned, removes it from
the id map and from the bucket of its current tag, then drops ownership;
otherwise returns `false` without side effects. -/
def DestroyGameObject (s : Scene) (id : ℕ) : Bool × Scene :=
  match removeFirstObj id s.objects with
  | none => (false, s)
  | some (g, rest) =>
    (true,
      { objects := rest
        objectsById := s.objectsById.filter fun j => ¬ j = g.id
        objectsByTag := bucketErase s.objectsByTag g.tag g.id })

end Scene

/-- One public scene operation of the claims. -/
inductive SceneOp
  | create (id : ℕ) (tag : String)
  | destroy (id : ℕ)
  | setTag (id : ℕ) (tag : String)
  deriving Repr, DecidableEq

/-- Run a sequence of scene operations (`create` builds a fresh entity with
the given id and tag, as `Scene::CreateGameObject` does with the global
monotone id counter). -/
def runScene : List SceneOp → Scene → Scene
  | [], s => s
  | SceneOp.create id tag :: ops, s =>
    runScene ops (s.AddGameObject ⟨id, tag, true, []⟩)
  | SceneOp.destroy id :: ops, s => runScene ops (s.DestroyGameObject id).2
  | SceneOp.setTag id tag :: ops, s => runScene ops (s.SetTagInScene id tag)

/-- Index consistency as claimed: every owned entity is mapped by its id and
listed in the bucket of its current tag, and the indices reference only
owned entities. -/
def SceneConsistent (s : Scene) : Bool :=
  (s.objects.all fun g =>
    decide (g.id ∈ s.objectsById) && decide (g.id ∈ lookupBucket s.objectsByTag g.tag)) &&
  (s.objectsById.all fun i => s.objects.any fun g => g.id = i) &&
  (s.objectsByTag.all fun e => e.2.all fun i => s.objects.any fun g => g.id = i)

/- ================================================================
   Scene component caches and thread-pool batches
   (src/Engine/src/core/Scene.cpp  Scene::RefreshComponentCaches,
    src/Engine/src/systems/ThreadPool.cpp)
   ================================================================ -/

namespace Scene

/-- `Scene::RefreshComponentCaches`: walks the owned objects; for each
active object pushes `GetComponent<Transform>()` (when non-null) into the
transform cache and every component for which `dynamic_cast<Behavior*>`
succeeds into the behavior cache.  Component `active` flags are not
consulted. -/
def RefreshComponentCaches (objs : List GameObject) : List Component × List Component :=
  (objs.filterMap fun g =>
    if g.active then GameObject.GetComponent CompType.transform g else none,
   (objs.filter fun g => g.active).flatMap fun g =>
    g.comps.filter fun c => c.ty.isA CompType.behavior)

end Scene

namespace ThreadPool

/-- `ThreadPool::UpdateTransforms`: the batch lambda null-checks and calls
`transform->Update(deltaTime)` on every entry — the component `active` flag
is not consulted.  Returns the uids on which `Update` runs. -/
def UpdateTransformsInvoked (transforms : List Component) : List ℕ :=
  transforms.map Component.uid

/-- `ThreadPool::UpdateBehaviors`: the batch lambda re-checks
`behavior->IsActive()` before calling `behavior->Update(deltaTime)`. -/
def UpdateBehaviorsInvoked (behaviors : List Component) : List ℕ :=
  (behaviors.filter fun c => c.active).map Component.uid

end ThreadPool

/- ================================================================
   Transform hierarchy and lazy world transform
   (src/Engine/src/components/Transform.cpp, Transform.h)
   ================================================================ -/

/-- The `Vec3` of Transform.h, over exact rationals. -/
structure Vec3 where
  x : ℚ
  y : ℚ
  z : ℚ
  deriving Repr, DecidableEq

instance : Add Vec3 :=
  ⟨fun a b => ⟨a.x + b.x, a.y + b.y, a.z + b.z⟩⟩

/-- Componentwise product, as used for world scale. -/
def Vec3.hadamard (a b : Vec3) : Vec3 :=
  ⟨a.x * b.x, a.y * b.y, a.z * b.z⟩

instance : Inhabited Vec3 := ⟨⟨0, 0, 0⟩⟩

/-- A local or world TRS triple (position, Euler rotation in degrees,
scale). -/
structure TRS where
  position : Vec3
  rotation : Vec3
  scale : Vec3
  deriving Repr, DecidableEq

instance : Inhabited TRS := ⟨⟨default, default, ⟨1, 1, 1⟩⟩⟩

/-- A collection of `Transform` instances indexed by `ℕ` (standing for the
C++ object addresses): local TRS, the lazily cached world TRS with its
dirty flag (a fresh `Transform` starts dirty with a zero-initialized world
cache), and the parent/children graph.  Indices `≥ n` are unused. -/
structure TransformWorld where
  n : ℕ
  localTRS : ℕ → TRS
  worldTRS : ℕ → TRS
  dirty : ℕ → Bool
  parent : ℕ → Option ℕ
  children : ℕ → List ℕ

namespace Transform

/-- The body of `Transform::UpdateWorldTransform` once the parent's world
TRS is known: componentwise-multiplicative scale, additive rotation and
position against the parent; a root copies its locals. -/
def composeWorld (parentWorld : Option TRS) (l : TRS) : TRS :=
  match parentWorld with
  | some w => ⟨w.position + l.position, w.rotation + l.rotation, w.scale.hadamard l.scale⟩
  | none => l

/-- `Transform::MarkWorldTransformDirty`: sets the flag and recurses through
the children.  `fuel` bounds the recursion depth; the C++ recursion
terminates exactly when the hierarchy is acyclic, in which case any
`fuel ≥ n` is enough. -/
def MarkWorldTransformDirty : ℕ → TransformWorld → ℕ → TransformWorld
  | 0, s, _ => s
  | fuel + 1, s, i =>
    let s1 := { s with dirty := fun j => if j = i then true else s.dirty j }
    (s.children i).foldl (fun acc c => MarkWorldTransformDirty fuel acc c) s1

/-- `Transform::UpdateWorldTransform`: returns immediately when clean;
otherwise recursively refreshes the parent, composes, and clears the dirty
flag. -/
def UpdateWorldTransform : ℕ → TransformWorld → ℕ → TransformWorld
  | 0, s, _ => s
  | fuel + 1, s, i =>
    if s.dirty i = false then
      s
    else
      match s.parent i with
      | some p =>
        let s1 := UpdateWorldTransform fuel s p
        { s1 with
          worldTRS := fun j =>
            if j = i then composeWorld (some (s1.worldTRS p)) (s1.localTRS i)
            else s1.worldTRS j
          dirty := fun j => if j = i then false else s1.dirty j }
      | none =>
        { s with
          worldTRS := fun j => if j = i then s.localTRS i else s.worldTRS j
          dirty := fun j => if j = i then false else s.dirty j }

/-- `Transform::GetWorldPosition`: refresh lazily, read the cache. -/
def GetWorldPosition (fuel : ℕ) (s : TransformWorld) (i : ℕ) :
    Vec3 × TransformWorld :=
  let s1 := UpdateWorldTransform fuel s i
  ((s1.worldTRS i).position, s1)

/-- `Transform::Translate`: `position += translation`, then mark self and
subtree dirty. -/
def Translate (fuel : ℕ) (s : TransformWorld) (i : ℕ) (t : Vec3) :
    TransformWorld :=
  MarkWorldTransformDirty fuel
    { s with
      localTRS := fun j =>
        if j = i then
          let l := s.localTRS i
          { l with position := l.position + t }
        else s.localTRS j }
    i

/-- `Transform::SetParent`: no-op when the parent is unchanged; otherwise
unlinks from the old parent's child list (`RemoveChild`), installs the new
parent, appends to its child list unless already present (`AddChild`), and
marks the subtree dirty. -/
def SetParent (fuel : ℕ) (s : TransformWorld) (child : ℕ)
    (newParent : Option ℕ) : TransformWorld :=
  if s.parent child = newParent then
    s
  else
    let s1 :=
      match s.parent child with
      | some p =>
        { s with children := fun j => if j = p then (s.children p).erase child else s.children j }
      | none => s
    let s2 := { s1 with parent := fun j => if j = child then newParent else s1.parent j }
    let s3 :=
      match newParent with
      | some p =>
        if child ∈ s2.children p then
          s2
        else
          { s2 with children := fun j => if j = p then s2.children p ++ [child] else s2.children j }
      | none => s2
    MarkWorldTransformDirty fuel s3 child

end Transform

/-- The intended world TRS of transform `i`: the fold of `composeWorld`
along the parent chain (defined with a depth bound; stable once the bound
exceeds the chain length). -/
def worldSpec : ℕ → TransformWorld → ℕ → TRS
  | 0, s, i => s.localTRS i
  | fuel + 1, s, i =>
    match s.parent i with
    | some p => Transform.composeWorld (some (worldSpec fuel s p)) (s.localTRS i)
    | none => s.localTRS i

/-- Hierarchies whose parent pointers strictly decrease the index: a
topological numbering, expressing the spec's acyclicity requirement. -/
def ParentDecreasing (s : TransformWorld) : Prop :=
  ∀ i p, s.parent i = some p → p < i

/-- States whose clean cached entries are correct: a clean node's parent is
clean and its cached world TRS is the composition of the parent's cached
world TRS with its locals.  (Freshly constructed transforms are all dirty,
so any all-dirty state qualifies vacuously.) -/
def CleanCache (s : TransformWorld) : Prop :=
  ∀ j, s.dirty j = false →
    (∀ p, s.parent j = some p →
      s.dirty p = false ∧
        s.worldTRS j = Transform.composeWorld (some (s.worldTRS p)) (s.localTRS j)) ∧
    (s.parent j = none → s.worldTRS j = s.localTRS j)

/- ================================================================
   Derived notions used by the claims
   ================================================================ -/

/-- The pool conservation quantity of the claims:
`inUse + available = totalCreated`. -/
def PoolConserved (p : ObjectPool) : Prop :=
  p.inUse + p.available = p.totalCreated

/-- Number of components of exact dynamic type `T`
(`typeid(*c) == typeid(T)`). -/
def countExact (T : CompType) (g : GameObject) : ℕ :=
  (g.comps.filter fun c => c.ty = T).length

/-- `k` successive `AddComponent<T>` calls on an entity (fresh uids). -/
def iterateAdd (T : CompType) : ℕ → GameObject → GameObject
  | 0, g => g
  | k + 1, g => iterateAdd T k (GameObject.AddComponent T k g).1

/-- A freshly constructed scene: no entities, empty indices. -/
def emptyScene : Scene := ⟨[], [], []⟩

/-- Admissible claim-scope scene histories: entity creation uses globally
fresh ids (the monotone `GameObject::nextId` counter) and the history
contains no `SetTag`. -/
def wfSceneOps : List SceneOp → Scene → Bool
  | [], _ => true
  | SceneOp.create id tag :: ops, s =>
    decide (¬ id ∈ s.objects.map GameObject.id) &&
      wfSceneOps ops (s.AddGameObject ⟨id, tag, true, []⟩)
  | SceneOp.destroy id :: ops, s => wfSceneOps ops (s.DestroyGameObject id).2
  | SceneOp.setTag _ _ :: _, _ => false

/-- The inductive invariant behind scene index consistency: object ids are
distinct, the id index lists exactly the owned ids, tag-map keys are
distinct, buckets are never empty, and the bucket of every tag holds
exactly the owned objects carrying that tag, in insertion order. -/
def SceneInv (s : Scene) : Prop :=
  (s.objects.map GameObject.id).Nodup ∧
  s.objectsById = s.objects.map GameObject.id ∧
  (s.objectsByTag.map Prod.fst).Nodup ∧
  (∀ e, e ∈ s.objectsByTag → e.2 ≠ []) ∧
  (∀ t, lookupBucket s.objectsByTag t =
    (s.objects.filter fun g => g.tag = t).map GameObject.id)

/-- The transform hierarchy of scenario S2: transform 0 is P with local
position `(1,0,0)`, transform 1 is C with local position `(0,2,0)`, both
initially parentless, freshly constructed (all world caches dirty). -/
def scenarioS2Init : TransformWorld where
  n := 2
  localTRS := fun i =>
    if i = 0 then ⟨⟨1, 0, 0⟩, ⟨0, 0, 0⟩, ⟨1, 1, 1⟩⟩
    else if i = 1 then ⟨⟨0, 2, 0⟩, ⟨0, 0, 0⟩, ⟨1, 1, 1⟩⟩
    else default
  worldTRS := fun _ => ⟨⟨0, 0, 0⟩, ⟨0, 0, 0⟩, ⟨0, 0, 0⟩⟩
  dirty := fun _ => true
  parent := fun _ => none
  children := fun _ => []

/-- A two-node hierarchy with node 1 already parented to node 0 and every
world cache dirty, used to instantiate the general composition theorem. -/
def parentedPair : TransformWorld where
  n := 2
  localTRS := fun i =>
    if i = 0 then ⟨⟨1, 0, 0⟩, ⟨0, 0, 0⟩, ⟨1, 1, 1⟩⟩
    else if i = 1 then ⟨⟨0, 2, 0⟩, ⟨0, 0, 0⟩, ⟨1, 1, 1⟩⟩
    else default
  worldTRS := fun _ => ⟨⟨0, 0, 0⟩, ⟨0, 0, 0⟩, ⟨0, 0, 0⟩⟩
  dirty := fun _ => true
  parent := fun j => if j = 1 then some 0 else none
  children := fun j => if j = 0 then [1] else []

/- ================================================================
   Theorems.  Each claim C1..C10 of the specification is settled by one
   main theorem (with witness or counterexample theorems as required);
   auxiliary lemmas are shared.
   ================================================================ -/

/-- C1 counterexample: with `deltaTime = CalculateTiming 2 1 = 1` and the
configured `fixedDeltaTime = 1/60`, the dt argument of the `FixedUpdate`
phase call is not the frame's `deltaTime`, refuting the claim that all three
phase calls receive the same `deltaTime`. -/
theorem updateFrame_same_dt_counterexample :
    (Engine.UpdateFrame true (Engine.CalculateTiming 2 1)
        (Engine.initFixedDeltaTime 60)).map PhaseArgs.fixedUpdateArg ≠
      some (Engine.CalculateTiming 2 1) := by
  simp only [Engine.UpdateFrame, Engine.CalculateTiming, Engine.initFixedDeltaTime,
    if_true, Option.map_some, ne_eq, Option.some.injEq]
  norm_num

/-- C1 (amended): in a frame with a current scene, the host passes the
computed `deltaTime = currentTime - lastFrameTime` to the `Update` and
`LateUpdate` phase calls, but passes the configured
`fixedDeltaTime = 1 / fixedUpdateRate` — not `deltaTime` — to the
`FixedUpdate` phase call; with no current scene the frame is skipped. -/
theorem updateFrame_phase_dt_arguments
    (currentTime lastFrameTime fixedUpdateRate : ℚ) :
    Engine.UpdateFrame true (Engine.CalculateTiming currentTime lastFrameTime)
        (Engine.initFixedDeltaTime fixedUpdateRate) =
      some ⟨currentTime - lastFrameTime, currentTime - lastFrameTime,
            1 / fixedUpdateRate⟩ ∧
    Engine.UpdateFrame false (Engine.CalculateTiming currentTime lastFrameTime)
        (Engine.initFixedDeltaTime fixedUpdateRate) = none := by
  exact ⟨rfl, rfl⟩

/-- C5 counterexample: with scenes `A`, `B`, `C`, current scene `A` and a
pending transition to `B`, the synchronous `LoadScene("C")` is not rejected:
it returns `true` and switches the current scene, refuting the claim. -/
theorem loadScene_while_pending_counterexample :
    ¬ ((SceneManager.LoadScene ⟨["A", "B", "C"], some "A", true, "B"⟩ "C").1 = false ∧
       (SceneManager.LoadScene ⟨["A", "B", "C"], some "A", true, "B"⟩ "C").2 =
         ⟨["A", "B", "C"], some "A", true, "B"⟩) := by
  decide

/-- C5 (amended): while a deferred transition is pending, a further
`LoadSceneAsync` is rejected (returns `false`, state unchanged), but a
synchronous `LoadScene` of a registered scene is not: it returns `true`,
makes that scene current, and leaves the pending transition state
(`isTransitioning`, `nextSceneName`) untouched. -/
theorem loadScene_during_pending_transition (s : SceneManagerState)
    (name : String) (hpend : s.isTransitioning = true) :
    SceneManager.LoadSceneAsync s name = (false, s) ∧
    (name ∈ s.scenes →
      SceneManager.LoadScene s name = (true, { s with currentScene := some name })) := by
  refine ⟨?_, fun hmem => ?_⟩
  · by_cases hmem : name ∈ s.scenes
    · simp [SceneManager.LoadSceneAsync, hmem, hpend]
    · simp [SceneManager.LoadSceneAsync, hmem]
  · simp [SceneManager.LoadScene, SceneManager.SwitchToScene, hmem]

/-- Witness for the C5 theorem at a concrete pending registry. -/
theorem loadScene_during_pending_transition_witness :
    SceneManager.LoadSceneAsync ⟨["A", "B"], some "A", true, "B"⟩ "A" =
      (false, ⟨["A", "B"], some "A", true, "B"⟩) ∧
    SceneManager.LoadScene ⟨["A", "B"], some "A", true, "B"⟩ "A" =
      (true, ⟨["A", "B"], some "A", true, "B"⟩) := by
  have h := loadScene_during_pending_transition ⟨["A", "B"], some "A", true, "B"⟩ "A" rfl
  exact ⟨h.1, h.2 (by decide)⟩

/-- `Get` preserves the conservation identity. -/
theorem poolConserved_get {p : ObjectPool} (h : PoolConserved p) :
    PoolConserved (p.Get).1 := by
  unfold PoolConserved ObjectPool.Get at *
  by_cases ha : p.available = 0 <;> simp [ha] <;> omega

/-- `Return` of an outstanding object preserves the conservation identity. -/
theorem poolConserved_ret {p : ObjectPool} (h : PoolConserved p)
    (hu : 0 < p.inUse) : PoolConserved p.Return := by
  unfold PoolConserved ObjectPool.Return at *
  simp
  omega

/-- `Reserve` preserves the conservation identity. -/
theorem poolConserved_reserve {p : ObjectPool} (h : PoolConserved p) (n : ℕ) :
    PoolConserved (p.Reserve n) := by
  unfold PoolConserved ObjectPool.Reserve at *
  by_cases hn : n ≤ p.capacity <;> simp [hn] <;> omega

/-- Conservation is preserved along any admissible operation sequence. -/
theorem runPool_conserved (ops : List PoolOp) (p : ObjectPool)
    (h : PoolConserved p) (hok : okPool ops p = true) :
    PoolConserved (runPool ops p) := by
  induction ops generalizing p with
  | nil => exact h
  | cons op ops ih =>
    cases op with
    | get => exact ih _ (poolConserved_get h) hok
    | ret =>
      rw [okPool, Bool.and_eq_true, decide_eq_true_eq] at hok
      exact ih _ (poolConserved_ret h hok.1) hok.2
    | reserve n => exact ih _ (poolConserved_reserve h n) hok

/-- C3 (amended): starting from construction, `inUse + available =
totalCreated` holds after every admissible `Get`/`Return`/`Reserve`
operation.  A `Get` immediately followed by a `Return` of the acquired
object always restores `inUse`; it restores `available` and `totalCreated`
exactly when the free list was nonempty at the `Get` — an exhausted pool
permanently increments both `available` and `totalCreated` by one. -/
theorem pool_counter_conservation (ops : List PoolOp) (cap : ℕ)
    (hok : okPool ops (ObjectPool.init cap) = true) :
    PoolConserved (runPool ops (ObjectPool.init cap)) ∧
    (∀ p : ObjectPool,
      ((p.Get).1.Return).inUse = p.inUse ∧
      (p.available ≠ 0 →
        ((p.Get).1.Return).available = p.available ∧
        ((p.Get).1.Return).totalCreated = p.totalCreated) ∧
      (p.available = 0 →
        ((p.Get).1.Return).available = p.available + 1 ∧
        ((p.Get).1.Return).totalCreated = p.totalCreated + 1)) := by
  refine ⟨runPool_conserved ops _ (by simp [PoolConserved, ObjectPool.init]) hok, ?_⟩
  intro p
  unfold ObjectPool.Get ObjectPool.Return
  by_cases ha : p.available = 0 <;> simp [ha] <;> omega

/-- Witness for the C3 theorem on a concrete admissible history. -/
theorem pool_counter_conservation_witness :
    okPool [PoolOp.get, PoolOp.reserve 5, PoolOp.get, PoolOp.ret]
        (ObjectPool.init 2) = true ∧
    PoolConserved (runPool [PoolOp.get, PoolOp.reserve 5, PoolOp.get, PoolOp.ret]
        (ObjectPool.init 2)) :=
  ⟨by decide,
   (pool_counter_conservation [PoolOp.get, PoolOp.reserve 5, PoolOp.get, PoolOp.ret]
      2 (by decide)).1⟩

/-- C3 counterexample: after `init 1; Get` (an admissible reachable state),
the pair `Get; Return` changes `totalCreated` (from 1 to 2) because the
free list was empty, refuting the claim that the pair leaves all three
counters unchanged. -/
theorem pool_pair_counterexample :
    okPool [PoolOp.get, PoolOp.get, PoolOp.ret] (ObjectPool.init 1) = true ∧
    (runPool [PoolOp.get, PoolOp.get, PoolOp.ret] (ObjectPool.init 1)).totalCreated ≠
      (runPool [PoolOp.get] (ObjectPool.init 1)).totalCreated := by
  decide

/-- `dynamic_cast` succeeds on the exact type. -/
theorem isA_refl (T : CompType) : T.isA T = true := by
  cases T <;> decide

/-- If no owned component is-a `T`, `GetComponent<T>` is null. -/
theorem getComponent_eq_none {T : CompType} {g : GameObject}
    (h : (g.comps.any fun c => c.ty.isA T) = false) :
    GameObject.GetComponent T g = none := by
  rw [GameObject.GetComponent, List.find?_eq_none]
  intro c hc
  simp only [List.any_eq_false] at h
  simp [h c hc]

/-- Adding to an entity with no is-a-`T` component appends a fresh
component of exact type `T`. -/
theorem addComponent_of_none {T : CompType} {g : GameObject} (uid : ℕ)
    (h : (g.comps.any fun c => c.ty.isA T) = false) :
    GameObject.AddComponent T uid g =
      ({ g with comps := g.comps ++ [⟨uid, T, true⟩] }, ⟨uid, T, true⟩,
        if g.active then [Hook.enable uid] else []) := by
  rw [GameObject.AddComponent, getComponent_eq_none h]

/-- Once `GetComponent<T>` is non-null, any number of further
`AddComponent<T>` calls leaves the entity unchanged. -/
theorem iterateAdd_of_found {T : CompType} {g : GameObject} {c : Component}
    (h : GameObject.GetComponent T g = some c) (k : ℕ) :
    iterateAdd T k g = g := by
  induction k with
  | zero => rfl
  | succ k ih =>
    rw [iterateAdd, GameObject.AddComponent, h]
    exact ih

/-- C7 counterexample: an entity holding only a `TestBehavior` (so no
component of exact dynamic type `Behavior`) still contains zero components
of exact type `Behavior` after one `AddComponent<Behavior>` call — the
duplicate check is a `dynamic_cast`, which already finds the derived
`TestBehavior` — refuting the claimed exact-type count of one. -/
theorem addComponent_exact_type_counterexample :
    countExact CompType.behavior
      (iterateAdd CompType.behavior 1
        ⟨0, "", true, [⟨7, CompType.testBehavior, true⟩]⟩) ≠ 1 := by
  decide

/-- C7 (amended): `AddComponent<T>` is idempotent by is-a, not by exact
type: when the entity already owns a component to which `dynamic_cast<T*>`
succeeds, the call returns the first such component and creates nothing;
consequently, on an entity that starts with no component that is-a `T`,
`k ≥ 1` successive calls leave exactly one component of exact type `T`. -/
theorem addComponent_isA_idempotent :
    (∀ (T : CompType) (g : GameObject) (uid : ℕ) (c : Component),
      GameObject.GetComponent T g = some c →
        GameObject.AddComponent T uid g = (g, c, [])) ∧
    (∀ (T : CompType) (g : GameObject) (k : ℕ),
      (g.comps.any fun c => c.ty.isA T) = false → 1 ≤ k →
        countExact T (iterateAdd T k g) = countExact T g + 1) := by
  constructor
  · intro T g uid c h
    rw [GameObject.AddComponent, h]
  · intro T g k h hk
    obtain ⟨k, rfl⟩ : ∃ m, k = m + 1 := ⟨k - 1, by omega⟩
    rw [iterateAdd, addComponent_of_none k h]
    have hfound :
        GameObject.GetComponent T { g with comps := g.comps ++ [⟨k, T, true⟩] } =
          some ⟨k, T, true⟩ := by
      rw [GameObject.GetComponent, List.find?_append]
      have h1 : g.comps.find? (fun c => c.ty.isA T) = none := getComponent_eq_none h
      simp [h1, isA_refl]
    rw [iterateAdd_of_found hfound]
    simp [countExact, List.filter_append, isA_refl]

/-- Witness for the C7 theorem: on an entity with an unrelated `Transform`
and nothing is-a `Behavior`, three `AddComponent<Behavior>` calls leave
exactly one component of exact type `Behavior`. -/
theorem addComponent_isA_idempotent_witness :
    countExact CompType.behavior
      (iterateAdd CompType.behavior 3
        ⟨0, "", true, [⟨1, CompType.transform, true⟩]⟩) =
      countExact CompType.behavior ⟨0, "", true, [⟨1, CompType.transform, true⟩]⟩ + 1 :=
  addComponent_isA_idempotent.2 CompType.behavior
    ⟨0, "", true, [⟨1, CompType.transform, true⟩]⟩ 3 (by decide) (by decide)

/-- Hook fan-out over the active components, written as a `filterMap`. -/
theorem filterMap_active_hooks (f : Component → Hook) (l : List Component) :
    (l.filterMap fun c => if c.active then some (f c) else none) =
      (l.filter fun c => c.active).map f := by
  induction l with
  | nil => rfl
  | cons c cs ih =>
    by_cases hc : c.active <;> simp [List.filterMap_cons, List.filter_cons, hc, ih]

/-- C8: `SetActive` with the current value changes nothing and fires no
hooks; a real activation (deactivation) edge flips only the object flag and
fires `OnEnable` (`OnDisable`) exactly once on exactly those components
whose own `active` flag is set at the transition, in order, leaving every
component — in particular every component `active` flag — unchanged. -/
theorem setActive_transition_hooks (g : GameObject) (b : Bool) :
    (g.active = b → GameObject.SetActive g b = (g, [])) ∧
    (g.active = false → b = true →
      GameObject.SetActive g b =
        ({ g with active := true },
         (g.comps.filter fun c => c.active).map fun c => Hook.enable c.uid)) ∧
    (g.active = true → b = false →
      GameObject.SetActive g b =
        ({ g with active := false },
         (g.comps.filter fun c => c.active).map fun c => Hook.disable c.uid)) := by
  refine ⟨fun hsame => ?_, fun h0 h1 => ?_, fun h0 h1 => ?_⟩
  · rw [GameObject.SetActive, if_pos hsame]
  · subst h1
    rw [GameObject.SetActive, if_neg (by simp [h0])]
    simp [filterMap_active_hooks]
  · subst h1
    rw [GameObject.SetActive, if_neg (by simp [h0])]
    simp [filterMap_active_hooks]

/-- Witness for the C8 theorem: activating an inactive entity with one
active and one inactive component fires `OnEnable` only on the active
one and flips no component flag. -/
theorem setActive_transition_hooks_witness :
    GameObject.SetActive
        ⟨0, "", false, [⟨1, CompType.transform, true⟩, ⟨2, CompType.behavior, false⟩]⟩
        true =
      (⟨0, "", true, [⟨1, CompType.transform, true⟩, ⟨2, CompType.behavior, false⟩]⟩,
       [Hook.enable 1]) := by
  have h := (setActive_transition_hooks
    ⟨0, "", false, [⟨1, CompType.transform, true⟩, ⟨2, CompType.behavior, false⟩]⟩
    true).2.1 rfl rfl
  rw [h]
  decide

/-- Full characterization of the fixed-step loop for a positive interval
and nonnegative starting accumulator: it performs `⌊accum/interval⌋`
rounds, passes `interval` to every round, and exits with the division
remainder `accum - interval * ⌊accum/interval⌋ ∈ [0, interval)`. -/
theorem fixedLoop_spec (interval accum : ℚ) (hI : 0 < interval)
    (hA : 0 ≤ accum) :
    (fixedLoop interval accum).1.length = (⌊accum / interval⌋).toNat ∧
    (∀ r ∈ (fixedLoop interval accum).1, r = interval) ∧
    (fixedLoop interval accum).2 = accum - interval * ⌊accum / interval⌋ ∧
    0 ≤ (fixedLoop interval accum).2 ∧
    (fixedLoop interval accum).2 < interval := by
  induction accum using fixedLoop.induct interval with
  | case1 accum h ih =>
    have hle := h.2
    have hA' : (0 : ℚ) ≤ accum - interval := by linarith
    obtain ⟨ihlen, ihmem, ihval, ihlo, ihhi⟩ := ih hA'
    have hne : interval ≠ 0 := ne_of_gt hI
    have hdiv : (accum - interval) / interval = accum / interval - 1 := by
      field_simp
    have hfloor : ⌊(accum - interval) / interval⌋ = ⌊accum / interval⌋ - 1 := by
      rw [hdiv]
      exact_mod_cast Int.floor_sub_int (accum / interval) 1
    have hfl0 : (0 : ℤ) ≤ ⌊(accum - interval) / interval⌋ :=
      Int.floor_nonneg.mpr (div_nonneg hA' (le_of_lt hI))
    rw [fixedLoop, dif_pos h]
    refine ⟨?_, ?_, ?_, ihlo, ihhi⟩
    · simpa [ihlen] using by omega
    · intro r hr
      rcases List.mem_cons.mp hr with hr | hr
      · exact hr
      · exact ihmem r hr
    · rw [ihval, hfloor]
      push_cast
      ring
  | case2 accum h =>
    rw [fixedLoop, dif_neg h]
    have hlt : accum < interval := by
      by_contra hge
      exact h ⟨hI, le_of_not_lt hge⟩
    have hfl : ⌊accum / interval⌋ = 0 := by
      rw [Int.floor_eq_zero_iff]
      constructor
      · exact div_nonneg hA (le_of_lt hI)
      · exact (div_lt_one hI).mpr hlt
    refine ⟨by simp [hfl], by simp, by simp [hfl], hA, hlt⟩

/-- C2: for a `FixedUpdate(scene, dt)` call with the system enabled, a
non-null scene, a positive `fixedInterval`, and nonnegative accumulator and
`dt` (both invariants of the running system), the number of `OnFixedUpdate`
rounds equals `⌊(accum + dt) / fixedInterval⌋`, every round passes
`fixedInterval` (not `dt`) to the behaviors, and the accumulator afterwards
is `(accum + dt) mod fixedInterval`, i.e. the unique remainder
`(accum + dt) - fixedInterval * ⌊(accum + dt) / fixedInterval⌋` lying in
`[0, fixedInterval)`. -/
theorem fixedUpdate_rounds_floor_mod (s : UpdateSystemState) (dt : ℚ)
    (hEn : s.enabled = true) (hI : 0 < s.fixedUpdateInterval)
    (hA : 0 ≤ s.fixedUpdateAccumulator) (hdt : 0 ≤ dt) :
    ((UpdateSystem.FixedUpdate s true dt).1.length : ℤ) =
      ⌊(s.fixedUpdateAccumulator + dt) / s.fixedUpdateInterval⌋ ∧
    (∀ r ∈ (UpdateSystem.FixedUpdate s true dt).1, r = s.fixedUpdateInterval) ∧
    (UpdateSystem.FixedUpdate s true dt).2.fixedUpdateAccumulator =
      (s.fixedUpdateAccumulator + dt) -
        s.fixedUpdateInterval *
          ⌊(s.fixedUpdateAccumulator + dt) / s.fixedUpdateInterval⌋ ∧
    0 ≤ (UpdateSystem.FixedUpdate s true dt).2.fixedUpdateAccumulator ∧
    (UpdateSystem.FixedUpdate s true dt).2.fixedUpdateAccumulator <
      s.fixedUpdateInterval := by
  have hA' : 0 ≤ s.fixedUpdateAccumulator + dt := by linarith
  obtain ⟨hlen, hmem, hval, hlo, hhi⟩ :=
    fixedLoop_spec s.fixedUpdateInterval (s.fixedUpdateAccumulator + dt) hI hA'
  have hfl0 : (0 : ℤ) ≤ ⌊(s.fixedUpdateAccumulator + dt) / s.fixedUpdateInterval⌋ :=
    Int.floor_nonneg.mpr (div_nonneg hA' (le_of_lt hI))
  rw [UpdateSystem.FixedUpdate]
  have hcond : (!s.enabled || !true) = false := by simp [hEn]
  rw [hcond]
  simp only [Bool.false_eq_true, if_false]
  refine ⟨?_, hmem, hval, hlo, hhi⟩
  rw [hlen]
  omega

/-- Witness for the C2 theorem: scenario S3's numbers — interval `1/50`
(0.02 s), accumulator `0`, one frame of `dt = 2/25` (0.08 s) — give
`⌊0.08 / 0.02⌋ = 4` rounds. -/
theorem fixedUpdate_rounds_floor_mod_witness :
    ((UpdateSystem.FixedUpdate ⟨true, 1/50, 0⟩ true (2/25)).1.length : ℤ) =
      ⌊((0 : ℚ) + 2/25) / (1/50)⌋ :=
  (fixedUpdate_rounds_floor_mod ⟨true, 1/50, 0⟩ (2/25) rfl
    (by norm_num) le_rfl (by norm_num)).1

/-- C6 counterexample: `RemoveComponent<Transform>()` on an entity owning
one active `Transform` invokes only `OnDestroy` — no `OnDisable` — before
erasing it, refuting the claim that every removal path runs `OnDisable`
then `OnDestroy`. -/
theorem removeComponent_onDisable_counterexample :
    (GameObject.RemoveComponentOfType CompType.transform
        ⟨0, "", true, [⟨3, CompType.transform, true⟩]⟩).2.2 = [Hook.destroy 3] ∧
    ¬ Hook.disable 3 ∈
      (GameObject.RemoveComponentOfType CompType.transform
        ⟨0, "", true, [⟨3, CompType.transform, true⟩]⟩).2.2 := by
  decide

/-- C6 (amended): each explicit `RemoveComponent*` path invokes `OnDestroy`
on each removed component before physically removing it, but only the
pointer-based `RemoveComponent(Component*)` additionally invokes
`OnDisable` (immediately before `OnDestroy`); the template paths
`RemoveComponent<T>()` / `RemoveComponents<T>()` skip `OnDisable`, and
destruction of the owning entity runs neither hook. -/
theorem component_removal_hook_order :
    (∀ (T : CompType) (cs : List Component),
      GameObject.removeComponentsLoop T cs =
        (cs.filter fun c => !(c.ty.isA T),
         (cs.filter fun c => c.ty.isA T).length,
         (cs.filter fun c => c.ty.isA T).map fun c => Hook.destroy c.uid)) ∧
    (∀ (T : CompType) (g : GameObject) (c : Component) (rest : List Component),
      removeFirst (fun c => c.ty.isA T) g.comps = some (c, rest) →
        GameObject.RemoveComponentOfType T g =
          ({ g with comps := rest }, true, [Hook.destroy c.uid])) ∧
    (∀ (uid : ℕ) (g : GameObject) (c : Component) (rest : List Component),
      removeFirst (fun x => x.uid = uid) g.comps = some (c, rest) →
        GameObject.RemoveComponentPtr uid g =
          ({ g with comps := rest }, true,
           [Hook.disable c.uid, Hook.destroy c.uid])) ∧
    (∀ g : GameObject, GameObject.destructionHooks g = []) := by
  refine ⟨fun T cs => ?_, fun T g c rest h => ?_, fun uid g c rest h => ?_,
    fun g => rfl⟩
  · induction cs with
    | nil => rfl
    | cons c cs ih =>
      by_cases hc : c.ty.isA T = true <;>
        simp [GameObject.removeComponentsLoop, List.filter_cons, hc, ih]
  · rw [GameObject.RemoveComponentOfType, h]
  · rw [GameObject.RemoveComponentPtr, h]

/-- Witness for the C6 theorem: removing the first is-a-`Behavior`
component (uid 2) fires exactly `OnDestroy 2`, and the bulk removal of all
behaviors fires `OnDestroy` on uids 2 and 3 in order, with no
`OnDisable`. -/
theorem component_removal_hook_order_witness :
    GameObject.RemoveComponentOfType CompType.behavior
        ⟨0, "", true,
          [⟨1, CompType.transform, true⟩, ⟨2, CompType.behavior, true⟩,
           ⟨3, CompType.testBehavior, false⟩]⟩ =
      (⟨0, "", true,
          [⟨1, CompType.transform, true⟩, ⟨3, CompType.testBehavior, false⟩]⟩,
        true, [Hook.destroy 2]) ∧
    (GameObject.removeComponentsLoop CompType.behavior
        [⟨1, CompType.transform, true⟩, ⟨2, CompType.behavior, true⟩,
         ⟨3, CompType.testBehavior, false⟩]).2.2 =
      [Hook.destroy 2, Hook.destroy 3] := by
  constructor
  · exact component_removal_hook_order.2.1 CompType.behavior _
      ⟨2, CompType.behavior, true⟩ _ (by decide)
  · rw [component_removal_hook_order.1 CompType.behavior]
    decide

/-- C10: a cache rebuild includes a component exactly when its owning
entity is active and the component is-a `Transform` (respectively is-a
`Behavior`), never consulting the component's own `active` flag; the
threaded transform batch then invokes `Transform::Update` regardless of the
component `active` flags (it is invariant under arbitrary changes of those
flags), whereas the behavior batch re-checks `IsActive` and invokes exactly
the active entries.  The transform half assumes what `AddComponent`
guarantees: at most one is-a-`Transform` component per entity. -/
theorem scene_cache_and_batch_policy (objs : List GameObject)
    (huniq : ∀ g ∈ objs,
      (g.comps.filter fun c => c.ty.isA CompType.transform).length ≤ 1) :
    (∀ c : Component,
      c ∈ (Scene.RefreshComponentCaches objs).1 ↔
        ∃ g, g ∈ objs ∧ g.active = true ∧ c ∈ g.comps ∧
          c.ty.isA CompType.transform = true) ∧
    (∀ c : Component,
      c ∈ (Scene.RefreshComponentCaches objs).2 ↔
        ∃ g, g ∈ objs ∧ g.active = true ∧ c ∈ g.comps ∧
          c.ty.isA CompType.behavior = true) ∧
    (∀ (ts : List Component) (f : Component → Bool),
      ThreadPool.UpdateTransformsInvoked (ts.map fun c => { c with active := f c }) =
        ThreadPool.UpdateTransformsInvoked ts) ∧
    (∀ bs : List Component,
      ThreadPool.UpdateBehaviorsInvoked bs =
        (bs.filter fun c => c.active).map Component.uid) := by
  refine ⟨fun c => ?_, fun c => ?_, fun ts f => ?_, fun bs => rfl⟩
  · simp only [Scene.RefreshComponentCaches, List.mem_filterMap]
    constructor
    · rintro ⟨g, hg, hfg⟩
      by_cases hact : g.active
      · rw [if_pos hact, GameObject.GetComponent] at hfg
        exact ⟨g, hg, hact, List.mem_of_find?_eq_some hfg,
          by simpa using List.find?_some hfg⟩
      · rw [if_neg hact] at hfg
        exact absurd hfg (by simp)
    · rintro ⟨g, hg, hact, hmem, hc⟩
      refine ⟨g, hg, ?_⟩
      rw [GameObject.GetComponent] at *
      rw [if_pos hact]
      obtain ⟨c', hc'⟩ : ∃ c', g.comps.find? (fun x => x.ty.isA CompType.transform) = some c' := by
        rcases hfind : g.comps.find? (fun x => x.ty.isA CompType.transform) with _ | c'
        · rw [List.find?_eq_none] at hfind
          exact absurd hc (by simpa using hfind c hmem)
        · exact ⟨c', hfind⟩
      have hcf : c ∈ g.comps.filter fun x => x.ty.isA CompType.transform :=
        List.mem_filter.mpr ⟨hmem, hc⟩
      have hc'f : c' ∈ g.comps.filter fun x => x.ty.isA CompType.transform :=
        List.mem_filter.mpr ⟨List.mem_of_find?_eq_some hc',
          by simpa using List.find?_some hc'⟩
      have hlen := huniq g hg
      rcases hl : g.comps.filter fun x => x.ty.isA CompType.transform with _ | ⟨x, _ | ⟨y, rest⟩⟩
      · rw [hl] at hcf
        exact absurd hcf (by simp)
      · rw [hl] at hcf hc'f
        simp only [List.mem_singleton] at hcf hc'f
        rw [hc', hc'f, ← hcf]
      · rw [hl] at hlen
        simp at hlen
  · simp only [Scene.RefreshComponentCaches, List.mem_flatMap, List.mem_filter]
    constructor
    · rintro ⟨g, ⟨hg, hact⟩, hcm, hc⟩
      exact ⟨g, hg, hact, hcm, hc⟩
    · rintro ⟨g, hg, hact, hcm, hc⟩
      exact ⟨g, ⟨hg, hact⟩, hcm, hc⟩
  · simp only [ThreadPool.UpdateTransformsInvoked, List.map_map]
    rfl

/-- Witness for the C10 theorem: on an active entity, a `Transform`
component whose own `active` flag is `false` is cached and is nonetheless
among the uids the threaded transform batch updates, while the inactive
behavior is filtered out of the behavior batch. -/
theorem scene_cache_and_batch_policy_witness :
    (⟨1, CompType.transform, false⟩ : Component) ∈
      (Scene.RefreshComponentCaches
        [⟨5, "", true,
          [⟨1, CompType.transform, false⟩, ⟨2, CompType.testBehavior, false⟩,
           ⟨3, CompType.behavior, true⟩]⟩]).1 := by
  exact ((scene_cache_and_batch_policy
      [⟨5, "", true,
        [⟨1, CompType.transform, false⟩, ⟨2, CompType.testBehavior, false⟩,
         ⟨3, CompType.behavior, true⟩]⟩] (by decide)).1
    ⟨1, CompType.transform, false⟩).mpr
    ⟨⟨5, "", true,
        [⟨1, CompType.transform, false⟩, ⟨2, CompType.testBehavior, false⟩,
         ⟨3, CompType.behavior, true⟩]⟩, by decide, rfl, by decide, rfl⟩

/-- A key absent from the tag map looks up to the empty bucket. -/
theorem lookupBucket_not_mem {m : List (String × List ℕ)} {t : String}
    (h : ¬ t ∈ m.map Prod.fst) : lookupBucket m t = [] := by
  induction m with
  | nil => rfl
  | cons e rest ih =>
    simp only [List.map_cons, List.mem_cons] at h
    push_neg at h
    rw [lookupBucket]
    rw [if_neg (fun hc => h.1 hc.symm)]
    exact ih h.2

/-- With distinct keys, a map entry is exactly what lookup returns. -/
theorem lookupBucket_of_mem {m : List (String × List ℕ)} {t : String}
    {b : List ℕ} (hnd : (m.map Prod.fst).Nodup) (h : (t, b) ∈ m) :
    lookupBucket m t = b := by
  induction m with
  | nil => exact absurd h (List.not_mem_nil _)
  | cons e rest ih =>
    simp only [List.map_cons, List.nodup_cons] at hnd
    rcases List.mem_cons.mp h with h | h
    · rw [← h, lookupBucket, if_pos rfl]
    · rw [lookupBucket]
      have ht : e.1 ≠ t := by
        intro hc
        exact hnd.1 (hc ▸ List.mem_map.mpr ⟨(t, b), h, rfl⟩)
      rw [if_neg ht]
      exact ih hnd.2 h

/-- Effect of `bucketPush` on lookups. -/
theorem lookupBucket_bucketPush (m : List (String × List ℕ)) (t : String)
    (i : ℕ) (u : String) :
    lookupBucket (bucketPush m t i) u =
      if u = t then lookupBucket m u ++ [i] else lookupBucket m u := by
  induction m with
  | nil =>
    by_cases hu : u = t
    · subst hu
      simp [bucketPush, lookupBucket]
    · have hv : t ≠ u := fun hc => hu hc.symm
      simp [bucketPush, lookupBucket, hu, hv]
  | cons e rest ih =>
    by_cases he : e.1 = t
    · by_cases hu : e.1 = u
      · have hut : u = t := hu.symm.trans he
        simp [bucketPush, lookupBucket, he, hu, hut]
      · have hut : ¬ u = t := fun hc => hu (he.trans hc.symm)
        have htu : ¬ t = u := fun hc => hut hc.symm
        simp [bucketPush, lookupBucket, he, hu, hut, htu]
    · by_cases hu : e.1 = u
      · have hut : ¬ u = t := fun hc => he (hu.trans hc)
        simp [bucketPush, lookupBucket, he, hu, hut]
      · simp [bucketPush, lookupBucket, he, hu, ih]

/-- Keys added by `bucketPush` are old keys or the pushed tag. -/
theorem mem_keys_bucketPush {m : List (String × List ℕ)} {t : String} {i : ℕ}
    {x : String} (h : x ∈ (bucketPush m t i).map Prod.fst) :
    x ∈ m.map Prod.fst ∨ x = t := by
  induction m with
  | nil =>
    simp only [bucketPush, List.map_cons, List.map_nil, List.mem_singleton] at h
    exact Or.inr h
  | cons e rest ih =>
    by_cases he : e.1 = t
    · rw [bucketPush, if_pos he] at h
      simp only [List.map_cons, List.mem_cons] at h ⊢
      tauto
    · rw [bucketPush, if_neg he] at h
      simp only [List.map_cons, List.mem_cons] at h ⊢
      rcases h with h | h
      · exact Or.inl (Or.inl h)
      · rcases ih h with h | h
        · exact Or.inl (Or.inr h)
        · exact Or.inr h

/-- `bucketPush` preserves distinctness of keys. -/
theorem nodup_keys_bucketPush {m : List (String × List ℕ)} {t : String}
    {i : ℕ} (hnd : (m.map Prod.fst).Nodup) :
    ((bucketPush m t i).map Prod.fst).Nodup := by
  induction m with
  | nil => simp [bucketPush]
  | cons e rest ih =>
    simp only [List.map_cons, List.nodup_cons] at hnd
    by_cases he : e.1 = t
    · rw [bucketPush, if_pos he]
      simp only [List.map_cons, List.nodup_cons]
      exact ⟨hnd.1, hnd.2⟩
    · rw [bucketPush, if_neg he]
      simp only [List.map_cons, List.nodup_cons]
      refine ⟨fun hc => ?_, ih hnd.2⟩
      rcases mem_keys_bucketPush hc with hmem | heq
      · exact hnd.1 hmem
      · exact he heq

/-- `bucketPush` preserves bucket nonemptiness. -/
theorem nonempty_bucketPush {m : List (String × List ℕ)} {t : String} {i : ℕ}
    (h : ∀ e ∈ m, e.2 ≠ []) : ∀ e ∈ bucketPush m t i, e.2 ≠ [] := by
  induction m with
  | nil =>
    intro e he
    simp only [bucketPush, List.mem_singleton] at he
    subst he
    simp
  | cons f rest ih =>
    intro e he
    by_cases hf : f.1 = t
    · rw [bucketPush, if_pos hf] at he
      rcases List.mem_cons.mp he with he | he
      · subst he
        simp
      · exact h e (List.mem_cons_of_mem f he)
    · rw [bucketPush, if_neg hf] at he
      rcases List.mem_cons.mp he with he | he
      · rw [he]
        exact h f (List.mem_cons_self f rest)
      · exact ih (fun x hx => h x (List.mem_cons_of_mem f hx)) e he

/-- Effect of `bucketErase` on lookups (keys distinct). -/
theorem lookupBucket_bucketErase (m : List (String × List ℕ)) (t : String)
    (i : ℕ) (u : String) (hnd : (m.map Prod.fst).Nodup) :
    lookupBucket (bucketErase m t i) u =
      if u = t then eraseFirstNat i (lookupBucket m t) else lookupBucket m u := by
  induction m with
  | nil => by_cases hu : u = t <;> simp [bucketErase, lookupBucket, eraseFirstNat, hu]
  | cons e rest ih =>
    simp only [List.map_cons, List.nodup_cons] at hnd
    by_cases he : e.1 = t
    · have hrest : lookupBucket rest t = [] :=
        lookupBucket_not_mem (fun hc => hnd.1 (he ▸ hc))
      by_cases hb : eraseFirstNat i e.2 = []
      · by_cases hu : u = t
        · subst hu
          simp [bucketErase, lookupBucket, he, hb, hrest]
        · have hne : ¬ e.1 = u := fun hc => hu (hc.symm.trans he)
          have htu : ¬ t = u := fun hc => hu hc.symm
          simp [bucketErase, lookupBucket, he, hb, hu, hne, htu]
      · by_cases hu : u = t
        · subst hu
          simp [bucketErase, lookupBucket, he, hb]
        · have hne : ¬ e.1 = u := fun hc => hu (hc.symm.trans he)
          have htu : ¬ t = u := fun hc => hu hc.symm
          simp [bucketErase, lookupBucket, he, hb, hu, hne, htu]
    · by_cases hu : e.1 = u
      · have hut : ¬ u = t := fun hc => he (hu.trans hc)
        simp [bucketErase, lookupBucket, he, hu, hut]
      · simp [bucketErase, lookupBucket, he, hu, ih hnd.2]

/-- The keys surviving `bucketErase` form a sublist of the old keys. -/
theorem keys_bucketErase_sublist (m : List (String × List ℕ)) (t : String)
    (i : ℕ) :
    List.Sublist ((bucketErase m t i).map Prod.fst) (m.map Prod.fst) := by
  induction m with
  | nil => simp [bucketErase]
  | cons e rest ih =>
    by_cases he : e.1 = t
    · rw [bucketErase, if_pos he]
      by_cases hb : eraseFirstNat i e.2 = []
      · rw [if_pos hb]
        simp only [List.map_cons]
        exact (List.Sublist.refl _).cons e.1
      · rw [if_neg hb]
        simp only [List.map_cons]
        exact (List.Sublist.refl _).cons₂ e.1
    · rw [bucketErase, if_neg he]
      simp only [List.map_cons]
      exact ih.cons₂ e.1

/-- `bucketErase` preserves bucket nonemptiness. -/
theorem nonempty_bucketErase {m : List (String × List ℕ)} {t : String} {i : ℕ}
    (h : ∀ e ∈ m, e.2 ≠ []) : ∀ e ∈ bucketErase m t i, e.2 ≠ [] := by
  induction m with
  | nil =>
    intro e he
    simp [bucketErase] at he
  | cons f rest ih =>
    intro e he
    by_cases hf : f.1 = t
    · rw [bucketErase, if_pos hf] at he
      by_cases hb : eraseFirstNat i f.2 = []
      · rw [if_pos hb] at he
        exact h e (List.mem_cons_of_mem f he)
      · rw [if_neg hb] at he
        rcases List.mem_cons.mp he with he | he
        · subst he
          exact hb
        · exact h e (List.mem_cons_of_mem f he)
    · rw [bucketErase, if_neg hf] at he
      rcases List.mem_cons.mp he with he | he
      · rw [he]
        exact h f (List.mem_cons_self f rest)
      · exact ih (fun x hx => h x (List.mem_cons_of_mem f hx)) e he

/-- Erasing the first occurrence of an id that heads the second half of an
append whose first half avoids it. -/
theorem eraseFirstNat_append {i : ℕ} {l1 l2 : List ℕ}
    (h : ∀ x ∈ l1, x ≠ i) : eraseFirstNat i (l1 ++ i :: l2) = l1 ++ l2 := by
  induction l1 with
  | nil => simp [eraseFirstNat]
  | cons x xs ih =>
    rw [List.cons_append, eraseFirstNat,
      if_neg (h x (List.mem_cons_self x xs)), List.cons_append,
      ih fun y hy => h y (List.mem_cons_of_mem x hy)]

/-- Characterization of `std::find_if` + `erase` on the owned-object
list. -/
theorem removeFirstObj_eq_some {id : ℕ} {l : List GameObject}
    {g : GameObject} {rest : List GameObject}
    (h : Scene.removeFirstObj id l = some (g, rest)) :
    g.id = id ∧
      ∃ l1 l2, l = l1 ++ g :: l2 ∧ rest = l1 ++ l2 ∧ ∀ x ∈ l1, x.id ≠ id := by
  induction l generalizing rest with
  | nil => exact absurd h (by simp [Scene.removeFirstObj])
  | cons x xs ih =>
    rw [Scene.removeFirstObj] at h
    by_cases hx : x.id = id
    · rw [if_pos hx] at h
      obtain ⟨hg, hrest⟩ := Prod.mk.injEq .. ▸ Option.some.inj h
      subst hg
      exact ⟨hx, [], xs, by simp [hrest.symm]⟩
    · rw [if_neg hx] at h
      rcases hrec : Scene.removeFirstObj id xs with _ | ⟨g', rest'⟩
      · rw [hrec] at h
        simp at h
      · rw [hrec] at h
        simp only [Option.map_some', Option.some.injEq, Prod.mk.injEq] at h
        obtain ⟨hg, hrest⟩ := h
        subst hg
        obtain ⟨hgid, l1, l2, hl, hr, hl1⟩ := ih hrec
        refine ⟨hgid, x :: l1, l2, by rw [hl]; rfl, ?_, ?_⟩
        · rw [← hrest, hr]
          rfl
        · intro y hy
          rcases List.mem_cons.mp hy with hy | hy
          · exact hy ▸ hx
          · exact hl1 y hy

/-- Registering a fresh entity preserves the scene index invariant. -/
theorem sceneInv_add {s : Scene} (g : GameObject) (hInv : SceneInv s)
    (hfresh : ¬ g.id ∈ s.objects.map GameObject.id) :
    SceneInv (s.AddGameObject g) := by
  obtain ⟨hnd, hbyId, hknd, hne, hbuck⟩ := hInv
  refine ⟨?_, ?_, nodup_keys_bucketPush hknd, nonempty_bucketPush hne, ?_⟩
  · simp only [Scene.AddGameObject, List.map_append, List.map_cons, List.map_nil]
    rw [List.nodup_append]
    refine ⟨hnd, List.nodup_singleton _, ?_⟩
    intro a ha hb
    simp only [List.mem_singleton] at hb
    subst hb
    exact hfresh ha
  · simp only [Scene.AddGameObject]
    rw [hbyId, if_neg hfresh, List.map_append]
    rfl
  · intro t
    simp only [Scene.AddGameObject]
    rw [lookupBucket_bucketPush, List.filter_append, List.map_append]
    by_cases ht : t = g.tag
    · rw [if_pos ht, hbuck t]
      have hg : [g].filter (fun g' => g'.tag = t) = [g] := by
        simp [List.filter_cons, ht.symm]
      rw [hg]
      rfl
    · rw [if_neg ht, hbuck t]
      have hg : [g].filter (fun g' => g'.tag = t) = [] := by
        simp [List.filter_cons]
        exact fun hc => ht hc.symm
      rw [hg]
      simp

/-- Destroying an entity preserves the scene index invariant. -/
theorem sceneInv_destroy {s : Scene} (id : ℕ) (hInv : SceneInv s) :
    SceneInv (s.DestroyGameObject id).2 := by
  obtain ⟨hnd, hbyId, hknd, hne, hbuck⟩ := hInv
  rcases hrm : Scene.removeFirstObj id s.objects with _ | ⟨g, rest⟩
  · simpa only [Scene.DestroyGameObject, hrm] using
      (⟨hnd, hbyId, hknd, hne, hbuck⟩ : SceneInv s)
  · obtain ⟨hgid, l1, l2, hl, hr, hl1⟩ := removeFirstObj_eq_some hrm
    have hids : s.objects.map GameObject.id =
        l1.map GameObject.id ++ g.id :: l2.map GameObject.id := by
      rw [hl]
      simp
    have hl1id : ∀ x ∈ l1.map GameObject.id, x ≠ g.id := by
      intro x hx
      obtain ⟨y, hy, hyx⟩ := List.mem_map.mp hx
      rw [← hyx, hgid]
      exact hl1 y hy
    have hndr : (rest.map GameObject.id).Nodup := by
      have hsub : List.Sublist (l1 ++ l2) (l1 ++ g :: l2) :=
        (List.sublist_cons_self g l2).append_left l1
      rw [hr]
      exact List.Nodup.sublist (hsub.map GameObject.id) (hl ▸ hnd)
    have hgnotl2 : ¬ g.id ∈ l2.map GameObject.id := by
      have h2 := List.Nodup.of_append_right (hids ▸ hnd)
      exact (List.nodup_cons.mp h2).1
    simp only [Scene.DestroyGameObject, hrm]
    refine ⟨hndr, ?_, ?_, nonempty_bucketErase hne, ?_⟩
    · rw [hbyId, hids, hr, List.map_append, List.filter_append]
      have h1 : (l1.map GameObject.id).filter (fun j => ¬ j = g.id) =
          l1.map GameObject.id := by
        rw [List.filter_eq_self]
        intro a ha
        simpa using hl1id a ha
      have h2 : ((g.id :: l2.map GameObject.id).filter fun j => ¬ j = g.id) =
          l2.map GameObject.id := by
        rw [List.filter_cons, if_neg (by simp)]
        rw [List.filter_eq_self]
        intro a ha
        simp only [decide_not, Bool.not_eq_true', decide_eq_false_iff_not]
        intro hc
        exact hgnotl2 (hc ▸ ha)
      rw [h1, h2]
    · exact List.Nodup.sublist (keys_bucketErase_sublist _ _ _) hknd
    · intro t
      rw [lookupBucket_bucketErase _ _ _ _ hknd]
      show _ = (rest.filter fun g' => g'.tag = t).map GameObject.id
      rw [hr, List.filter_append, List.map_append]
      by_cases ht : t = g.tag
      · subst ht
        rw [if_pos rfl, hbuck g.tag, hl, List.filter_append, List.map_append]
        have hgf : ((g :: l2).filter fun g' => g'.tag = g.tag) =
            g :: (l2.filter fun g' => g'.tag = g.tag) := by
          rw [List.filter_cons, if_pos (by simp)]
        rw [hgf, List.map_cons]
        refine eraseFirstNat_append ?_
        intro x hx
        obtain ⟨y, hy, hyx⟩ := List.mem_map.mp hx
        exact hyx ▸ hl1id y.id
          (List.mem_map_of_mem GameObject.id (List.mem_of_mem_filter hy))
      · rw [if_neg ht, hbuck t, hl, List.filter_append, List.map_append]
        have hgf : ((g :: l2).filter fun g' => g'.tag = t) =
            l2.filter fun g' => g'.tag = t := by
          rw [List.filter_cons,
            if_neg (by simp only [decide_eq_true_eq]; exact fun hc => ht hc.symm)]
        rw [hgf]

/-- The invariant implies the claimed consistency predicate. -/
theorem sceneInv_consistent {s : Scene} (hInv : SceneInv s) :
    SceneConsistent s = true := by
  obtain ⟨hnd, hbyId, hknd, hne, hbuck⟩ := hInv
  rw [SceneConsistent]
  simp only [Bool.and_eq_true, List.all_eq_true, Bool.and_eq_true,
    decide_eq_true_eq, List.any_eq_true]
  refine ⟨⟨fun g hg => ⟨?_, ?_⟩, fun i hi => ?_⟩, fun e he => fun i hi => ?_⟩
  · rw [hbyId]
    exact List.mem_map_of_mem GameObject.id hg
  · rw [hbuck g.tag]
    exact List.mem_map_of_mem GameObject.id
      (List.mem_filter.mpr ⟨hg, by simp⟩)
  · rw [hbyId] at hi
    obtain ⟨g, hg, hgi⟩ := List.mem_map.mp hi
    exact ⟨g, hg, hgi⟩
  · have hlk : lookupBucket s.objectsByTag e.1 = e.2 :=
      lookupBucket_of_mem hknd (by
        have : (e.1, e.2) = e := rfl
        rw [this]
        exact he)
    rw [← hlk, hbuck e.1] at hi
    obtain ⟨g, hg, hgi⟩ := List.mem_map.mp hi
    exact ⟨g, List.mem_of_mem_filter hg, hgi⟩

/-- A fresh scene satisfies the invariant. -/
theorem sceneInv_empty : SceneInv emptyScene := by
  refine ⟨List.nodup_nil, rfl, List.nodup_nil, ?_, fun t => rfl⟩
  intro e he
  simp [emptyScene] at he

/-- The invariant holds along every admissible operation history. -/
theorem runScene_inv (ops : List SceneOp) (s : Scene) (hInv : SceneInv s)
    (hwf : wfSceneOps ops s = true) : SceneInv (runScene ops s) := by
  induction ops generalizing s with
  | nil => exact hInv
  | cons op ops ih =>
    cases op with
    | create id tag =>
      rw [wfSceneOps, Bool.and_eq_true, decide_eq_true_eq] at hwf
      exact ih _ (sceneInv_add _ hInv hwf.1) hwf.2
    | destroy id =>
      exact ih _ (sceneInv_destroy id hInv) hwf
    | setTag id tag =>
      rw [wfSceneOps] at hwf
      exact absurd hwf (by simp)

/-- C4 counterexample: create an entity with tag `"a"`, then change its tag
to `"b"` via `SetTag`.  The entity's current tag bucket (`"b"`) does not
contain it — the scene's tag index is never told about the change — so the
claimed consistency fails after a `SetTag`. -/
theorem scene_setTag_counterexample :
    SceneConsistent
      (runScene [SceneOp.create 0 "a", SceneOp.setTag 0 "b"] emptyScene) =
      false := by
  decide

/-- C4 (amended): after any sequence of entity creations (with the globally
fresh ids that `GameObject::nextId` produces) and destructions — but no
`SetTag` — the indices are consistent: every owned entity is mapped by its
id, listed in the bucket of its current tag, and the indices reference only
owned entities.  `SetTag`, however, updates only the entity's tag field and
touches neither index, so after a `SetTag` the entity stays indexed under
the tag it had when it was registered. -/
theorem scene_index_consistency (ops : List SceneOp)
    (hwf : wfSceneOps ops emptyScene = true) :
    SceneConsistent (runScene ops emptyScene) = true ∧
    (∀ (s : Scene) (id : ℕ) (t : String),
      (s.SetTagInScene id t).objectsById = s.objectsById ∧
      (s.SetTagInScene id t).objectsByTag = s.objectsByTag) :=
  ⟨sceneInv_consistent (runScene_inv ops emptyScene sceneInv_empty hwf),
   fun _ _ _ => ⟨rfl, rfl⟩⟩

/-- Witness for the C4 theorem: scenario S1's tag population plus a
destruction, evaluated concretely. -/
theorem scene_index_consistency_witness :
    SceneConsistent
      (runScene
        [SceneOp.create 0 "a", SceneOp.create 1 "a", SceneOp.create 2 "b",
         SceneOp.create 3 "", SceneOp.destroy 0, SceneOp.create 4 "b"]
        emptyScene) = true :=
  (scene_index_consistency
    [SceneOp.create 0 "a", SceneOp.create 1 "a", SceneOp.create 2 "b",
     SceneOp.create 3 "", SceneOp.destroy 0, SceneOp.create 4 "b"]
    (by decide)).1

/-- `UpdateWorldTransform` never changes locals, parents or children. -/
theorem uwt_preserves (fuel : ℕ) :
    ∀ (s : TransformWorld) (i : ℕ),
      (Transform.UpdateWorldTransform fuel s i).localTRS = s.localTRS ∧
      (Transform.UpdateWorldTransform fuel s i).parent = s.parent ∧
      (Transform.UpdateWorldTransform fuel s i).children = s.children := by
  induction fuel with
  | zero => exact fun s i => ⟨rfl, rfl, rfl⟩
  | succ fuel ih =>
    intro s i
    rw [Transform.UpdateWorldTransform]
    by_cases hd : s.dirty i = false
    · rw [if_pos hd]
      exact ⟨rfl, rfl, rfl⟩
    · rw [if_neg hd]
      rcases hp : s.parent i with _ | p
      · simp [hp]
      · obtain ⟨h1, h2, h3⟩ := ih s p
        simp [hp, h1, h2, h3]

/-- `UpdateWorldTransform` at `i` touches no flag or cache at an index
above `i` (parent pointers strictly decrease). -/
theorem uwt_untouched (fuel : ℕ) :
    ∀ (s : TransformWorld) (i j : ℕ), ParentDecreasing s → i < j →
      (Transform.UpdateWorldTransform fuel s i).dirty j = s.dirty j ∧
      (Transform.UpdateWorldTransform fuel s i).worldTRS j = s.worldTRS j := by
  induction fuel with
  | zero => exact fun s i j hP hij => ⟨rfl, rfl⟩
  | succ fuel ih =>
    intro s i j hP hij
    rw [Transform.UpdateWorldTransform]
    by_cases hd : s.dirty i = false
    · rw [if_pos hd]
      exact ⟨rfl, rfl⟩
    · rw [if_neg hd]
      rcases hp : s.parent i with _ | p
      · have hji : ¬ j = i := by omega
        simp [hp, hji]
      · have hpj : p < j := lt_trans (hP i p hp) hij
        obtain ⟨h1, h2⟩ := ih s p j hP hpj
        have hji : ¬ j = i := by omega
        simp [hp, hji, h1, h2]

/-- With sufficient fuel, `UpdateWorldTransform` preserves cache
correctness and cleans the queried node. -/
theorem uwt_clean (fuel : ℕ) :
    ∀ (s : TransformWorld) (i : ℕ),
      ParentDecreasing s → CleanCache s → i < fuel →
        CleanCache (Transform.UpdateWorldTransform fuel s i) ∧
        (Transform.UpdateWorldTransform fuel s i).dirty i = false := by
  induction fuel with
  | zero => intro s i hP hC hfuel; omega
  | succ fuel ih =>
    intro s i hP hC hfuel
    rw [Transform.UpdateWorldTransform]
    by_cases hd : s.dirty i = false
    · rw [if_pos hd]
      exact ⟨hC, hd⟩
    · rw [if_neg hd]
      rcases hp : s.parent i with _ | p
      · simp only [hp]
        refine ⟨?_, by simp⟩
        intro j hj
        by_cases hji : j = i
        · subst hji
          refine ⟨fun q hq => ?_, fun _ => by simp⟩
          · have : s.parent j = some q := by simpa using hq
            rw [hp] at this
            exact absurd this (by simp)
        · have hj' : s.dirty j = false := by simpa [hji] using hj
          obtain ⟨hsome, hnone⟩ := hC j hj'
          refine ⟨fun q hq => ?_, fun hq => ?_⟩
          · have hq0 : s.parent j = some q := by simpa using hq
            obtain ⟨hq1, hq2⟩ := hsome q hq0
            have hqi : ¬ q = i := fun hc => hd (hc ▸ hq1)
            constructor
            · simpa [hqi] using hq1
            · simpa [hji, hqi] using hq2
          · have hq0 : s.parent j = none := by simpa using hq
            simpa [hji] using hnone hq0
      · have hpi : p < i := hP i p hp
        have hpfuel : p < fuel := by omega
        obtain ⟨hC1, hcp⟩ := ih s p hP hC hpfuel
        have hpre := uwt_preserves fuel s p
        simp only [hp]
        refine ⟨?_, by simp⟩
        intro j hj
        by_cases hji : j = i
        · subst hji
          refine ⟨fun q hq => ?_, fun hq => ?_⟩
          · have hq0 : s.parent j = some q := by
              rw [← hpre.2.1]
              simpa using hq
            rw [hp] at hq0
            obtain rfl : p = q := Option.some.inj hq0
            have hqj : ¬ p = j := by omega
            refine ⟨by simpa [hqj] using hcp, ?_⟩
            simp [hqj]
          · have hq0 : s.parent j = none := by
              rw [← hpre.2.1]
              simpa using hq
            rw [hp] at hq0
            exact absurd hq0 (by simp)
        · have hj1 : (Transform.UpdateWorldTransform fuel s p).dirty j = false := by
            simpa [hji] using hj
          obtain ⟨hsome, hnone⟩ := hC1 j hj1
          refine ⟨fun q hq => ?_, fun hq => ?_⟩
          · have hq' : (Transform.UpdateWorldTransform fuel s p).parent j = some q := by
              simpa using hq
            obtain ⟨hq1, hq2⟩ := hsome q hq'
            have hqi : ¬ q = i := by
              intro hc
              subst hc
              have hu := (uwt_untouched fuel s p q hP hpi).1
              rw [hu] at hq1
              exact hd hq1
            constructor
            · simpa [hqi] using hq1
            · simpa [hji, hqi] using hq2
          · have hq' : (Transform.UpdateWorldTransform fuel s p).parent j = none := by
              simpa using hq
            simpa [hji] using hnone hq'

/-- Unfolding of `Vec3` addition. -/
theorem vec3_add (a b : Vec3) :
    a + b = ⟨a.x + b.x, a.y + b.y, a.z + b.z⟩ := rfl

/-- C9: world-transform composition is additive on position and rotation
and componentwise-multiplicative on scale: after a (sufficiently fueled)
`UpdateWorldTransform` on an acyclic hierarchy whose clean caches are
correct, a node with a parent holds world position = parent world position
+ local position (rotation the sum, scale the componentwise product), and a
root holds its locals.  Concretely (scenario S2): with parent P at
`(1,0,0)` and child C at `(0,2,0)`, after `SetParent(C,P)` C's world
position is `(1,2,0)`, and after additionally translating P by `(0,0,3)`
it is `(1,2,3)`. -/
theorem transform_world_composition :
    (∀ (s : TransformWorld) (fuel i p : ℕ),
      ParentDecreasing s → CleanCache s → s.parent i = some p → i < fuel →
        ((Transform.UpdateWorldTransform fuel s i).worldTRS i).position =
            ((Transform.UpdateWorldTransform fuel s i).worldTRS p).position +
              (s.localTRS i).position ∧
        ((Transform.UpdateWorldTransform fuel s i).worldTRS i).rotation =
            ((Transform.UpdateWorldTransform fuel s i).worldTRS p).rotation +
              (s.localTRS i).rotation ∧
        ((Transform.UpdateWorldTransform fuel s i).worldTRS i).scale =
            Vec3.hadamard ((Transform.UpdateWorldTransform fuel s i).worldTRS p).scale
              (s.localTRS i).scale) ∧
    (∀ (s : TransformWorld) (fuel i : ℕ),
      ParentDecreasing s → CleanCache s → s.parent i = none → i < fuel →
        (Transform.UpdateWorldTransform fuel s i).worldTRS i = s.localTRS i) ∧
    (Transform.GetWorldPosition 4
        (Transform.SetParent 4 scenarioS2Init 1 (some 0)) 1).1 = ⟨1, 2, 0⟩ ∧
    (Transform.GetWorldPosition 4
        (Transform.Translate 4
          (Transform.GetWorldPosition 4
            (Transform.SetParent 4 scenarioS2Init 1 (some 0)) 1).2
          0 ⟨0, 0, 3⟩) 1).1 = ⟨1, 2, 3⟩ := by
  refine ⟨fun s fuel i p hP hC hp hfuel => ?_, fun s fuel i hP hC hp hfuel => ?_,
    ?_, ?_⟩
  · obtain ⟨hC', hdi⟩ := uwt_clean fuel s i hP hC hfuel
    have hpre := uwt_preserves fuel s i
    have hp' : (Transform.UpdateWorldTransform fuel s i).parent i = some p := by
      rw [hpre.2.1]
      exact hp
    obtain ⟨hsome, _⟩ := hC' i hdi
    obtain ⟨_, heq⟩ := hsome p hp'
    rw [heq, hpre.1]
    exact ⟨rfl, rfl, rfl⟩
  · obtain ⟨hC', hdi⟩ := uwt_clean fuel s i hP hC hfuel
    have hpre := uwt_preserves fuel s i
    have hp' : (Transform.UpdateWorldTransform fuel s i).parent i = none := by
      rw [hpre.2.1]
      exact hp
    obtain ⟨_, hnone⟩ := hC' i hdi
    rw [hnone hp', hpre.1]
  · simp [Transform.GetWorldPosition, Transform.UpdateWorldTransform,
      Transform.SetParent, Transform.MarkWorldTransformDirty,
      Transform.composeWorld, scenarioS2Init, Vec3.hadamard, vec3_add]
  · simp [Transform.GetWorldPosition, Transform.UpdateWorldTransform,
      Transform.SetParent, Transform.MarkWorldTransformDirty,
      Transform.Translate, Transform.composeWorld, scenarioS2Init,
      Vec3.hadamard, vec3_add]

/-- Witness for the C9 theorem: on the concrete dirty two-node hierarchy,
the child's refreshed world position is the parent's world position plus
the child's local position. -/
theorem transform_world_composition_witness :
    ((Transform.UpdateWorldTransform 2 parentedPair 1).worldTRS 1).position =
      ((Transform.UpdateWorldTransform 2 parentedPair 1).worldTRS 0).position +
        (parentedPair.localTRS 1).position := by
  have hP : ParentDecreasing parentedPair := by
    intro i p h
    by_cases hi : i = 1
    · subst hi
      simp [parentedPair] at h
      omega
    · simp [parentedPair, hi] at h
  have hC : CleanCache parentedPair := by
    intro j hj
    simp [parentedPair] at hj
  exact (transform_world_composition.1 parentedPair 2 1 0 hP hC rfl (by omega)).1
